import Mathlib

/-!
Verification of the OSC MCP server core (decoder, matcher, message store,
endpoint registry) against its natural-language specification.

The TypeScript sources are shallowly embedded: each `def` below mirrors one
function of the repository (`src/osc/buffer.ts`, `src/osc/parser.ts`,
`src/osc/endpoint.ts`, `src/osc/manager.ts`).  JavaScript `Date` timestamps
are modelled as integers (`Date.getTime()` milliseconds), byte buffers as
`List Nat` (each entry a byte value), and the stable `Array.prototype.sort`
with comparator `(a, b) => b.timestamp - a.timestamp` as a stable insertion
sort by descending timestamp (extensionally equal to any stable sort with
that comparator).
-/

namespace OscSpec

/-- One decoded OSC argument.  The source stores `number | string | Buffer`;
float32 arguments are kept as their raw big-endian 32-bit pattern (the source
applies the IEEE-754 interpretation via `readFloatBE`, which does not affect
any counting or structural property verified here). -/
inductive OSCArg where
  | int32 (value : Int)
  | float32 (bits : Nat)
  | str (value : String)
  | blob (bytes : List Nat)
deriving Repr, DecidableEq

/-- A decoded OSC message (`OSCMessage` in `src/types/index.ts`).
`timestamp` is the `Date` of reception in milliseconds. -/
structure OSCMessage where
  timestamp : Int
  address : String
  typeTags : String
  arguments : List OSCArg
  sourceIp : String
  sourcePort : Nat
deriving Repr, DecidableEq

/-- Characters that the JavaScript regex atom `.` (without the `s` flag)
does not match: the four line terminators. -/
def isDotChar (c : Char) : Bool :=
  c ≠ '\n' && c ≠ '\r' && c.toNat ≠ 0x2028 && c.toNat ≠ 0x2029

/-- The suffixes of an address reachable by letting `*` consume a (possibly
empty) run of non-line-terminator characters from the front. -/
def starSuffixes : List Char → List (List Char)
  | [] => [[]]
  | c :: cs => (c :: cs) :: (if isDotChar c then starSuffixes cs else [])

/-- Matching semantics of the anchored regex built by
`MessageBuffer.matchesAddressPattern` (`src/osc/buffer.ts`): the pattern is
regex-escaped except `*` (mapped to `.*`) and `?` (mapped to `.`), wrapped in
`^...$`, and tested against the address.  Hence every non-wildcard pattern
character matches literally, `?` matches one non-line-terminator character,
and `*` matches any run of non-line-terminator characters; `*` is rendered by
trying every split of the address into such a run and a remainder (the
backtracking existential of `.*`).  First argument is the pattern, second the
address, both as character lists. -/
def globMatch : List Char → List Char → Bool
  | [], a => a.isEmpty
  | p :: ps, a =>
    if p = '*' then (starSuffixes a).any (fun s => globMatch ps s)
    else
      match a with
      | [] => false
      | c :: cs => (if p = '?' then isDotChar c else p == c) && globMatch ps cs

/-- `MessageBuffer.matchesAddressPattern(address, pattern)`. -/
def matchesAddressPattern (address pattern : String) : Bool :=
  globMatch pattern.toList address.toList

/-- State of `MessageBuffer` (`src/osc/buffer.ts`): backing array, capacity,
filter set, circular write index and the monotone received counter. -/
structure MessageBuffer where
  messages : List OSCMessage
  maxSize : Nat
  addressFilters : List String
  writeIndex : Nat
  totalMessagesReceived : Nat
deriving Repr, DecidableEq

/-- The `MessageBuffer` constructor: `maxSize = Math.max(1, config.maxSize)`,
empty message array, `writeIndex = 0`, counter `0`. -/
def createMessageBuffer (maxSize : Nat) (addressFilters : List String) : MessageBuffer :=
  { messages := []
    maxSize := max 1 maxSize
    addressFilters := addressFilters
    writeIndex := 0
    totalMessagesReceived := 0 }

/-- The filter test at the top of `addMessage`: a message passes when the
filter set is empty or some filter matches its address. -/
def acceptsMessage (b : MessageBuffer) (m : OSCMessage) : Bool :=
  b.addressFilters.isEmpty ||
    b.addressFilters.any (fun filter => matchesAddressPattern m.address filter)

/-- `MessageBuffer.addMessage`: drop silently when a non-empty filter set has
no match; otherwise push while below capacity, or overwrite the slot at
`writeIndex` and advance it modulo `maxSize`; the received counter is
incremented on every stored (not filtered-out) message. -/
def addMessage (b : MessageBuffer) (m : OSCMessage) : MessageBuffer :=
  if ¬ acceptsMessage b m then b
  else if b.messages.length < b.maxSize then
    { b with
        messages := b.messages ++ [m]
        totalMessagesReceived := b.totalMessagesReceived + 1 }
  else
    { b with
        messages := b.messages.set b.writeIndex m
        writeIndex := (b.writeIndex + 1) % b.maxSize
        totalMessagesReceived := b.totalMessagesReceived + 1 }

/-- Stable insertion (descending timestamps): `m` goes after every existing
element whose timestamp is at least `m`'s. -/
def insertDesc (m : OSCMessage) : List OSCMessage → List OSCMessage
  | [] => [m]
  | x :: xs => if m.timestamp ≤ x.timestamp then x :: insertDesc m xs else m :: x :: xs

/-- Model of `array.sort((a, b) => b.timestamp.getTime() - a.timestamp.getTime())`:
a stable sort by descending timestamp. -/
def sortByTimestampDesc (l : List OSCMessage) : List OSCMessage :=
  l.foldl (fun acc m => insertDesc m acc) []

/-- Query parameters (`MessageQuery` in `src/types/index.ts`). -/
structure MessageQuery where
  addressPattern : Option String := none
  since : Option Int := none
  untilTs : Option Int := none
  limit : Option Int := none
deriving Repr, DecidableEq

/-- The filtering stage of `MessageBuffer.getMessages`: the early return for
the empty pattern, then the pattern / `since` / `until` filters, in source
order. -/
def queryFiltered (b : MessageBuffer) (q : MessageQuery) : List OSCMessage :=
  if q.addressPattern = some "" then []
  else
    let f1 := match q.addressPattern with
      | some p => b.messages.filter (fun m => matchesAddressPattern m.address p)
      | none => b.messages
    let f2 := match q.since with
      | some s => f1.filter (fun m => s ≤ m.timestamp)
      | none => f1
    match q.untilTs with
      | some u => f2.filter (fun m => m.timestamp ≤ u)
      | none => f2

/-- The limit stage of `MessageBuffer.getMessages`: `0` empties the result,
positive limits truncate, negative limits are ignored. -/
def applyLimit (limit : Option Int) (l : List OSCMessage) : List OSCMessage :=
  match limit with
  | none => l
  | some k => if k = 0 then [] else if k > 0 then l.take k.toNat else l

/-- `MessageBuffer.getMessages`: filter, sort newest-first, then limit. -/
def getMessages (b : MessageBuffer) (q : MessageQuery) : List OSCMessage :=
  applyLimit q.limit (sortByTimestampDesc (queryFiltered b q))

/-- `MessageBuffer.getMessageCount`. -/
def getMessageCount (b : MessageBuffer) : Nat :=
  b.messages.length

/-- `MessageBuffer.getTotalMessagesReceived`. -/
def getTotalMessagesReceived (b : MessageBuffer) : Nat :=
  b.totalMessagesReceived

/-- `MessageBuffer.resizeBuffer`: clamp to at least 1; growing (new size at
least the stored count) keeps the array; shrinking keeps the `newMaxSize`
newest messages by timestamp (stable sort) and resets the write index. -/
def resizeBuffer (b : MessageBuffer) (newSize : Nat) : MessageBuffer :=
  let newMaxSize := max 1 newSize
  if b.messages.length ≤ newMaxSize then
    { b with maxSize := newMaxSize }
  else
    { b with
        messages := (sortByTimestampDesc b.messages).take newMaxSize
        maxSize := newMaxSize
        writeIndex := 0 }

/-- `MessageBuffer.updateConfig`: optional resize, then optional filter
replacement. -/
def updateConfig (b : MessageBuffer) (maxSize? : Option Nat)
    (addressFilters? : Option (List String)) : MessageBuffer :=
  let b1 := match maxSize? with
    | some s => resizeBuffer b s
    | none => b
  match addressFilters? with
  | some f => { b1 with addressFilters := f }
  | none => b1

/-- Folding a whole list of messages into a buffer with `addMessage`. -/
def addAll (b : MessageBuffer) (ms : List OSCMessage) : MessageBuffer :=
  ms.foldl addMessage b

/-- The stored messages in insertion order (oldest first): the circular
array read starting at the write index. -/
def chron (b : MessageBuffer) : List OSCMessage :=
  b.messages.drop b.writeIndex ++ b.messages.take b.writeIndex

/-- The last `n` elements of a list, in order. -/
def takeLast (n : Nat) (l : List OSCMessage) : List OSCMessage :=
  l.drop (l.length - n)

/-- Error codes used by the parser and endpoint (`ErrorCode` in
`src/types/index.ts`), restricted to the ones the embedded code can yield. -/
inductive ErrorCode where
  | INVALID_OSC_MESSAGE
  | MESSAGE_PARSE_ERROR
deriving Repr, DecidableEq

/-- An `OSCError` value: machine code plus human-readable message (the
`details` payload is omitted; no verified property depends on it). -/
structure OSCError where
  code : ErrorCode
  message : String
deriving Repr, DecidableEq

/-- `Buffer.prototype.indexOf(0, fromIndex)`: a negative start counts from
the end of the buffer (clamped to 0); returns the first index at or after
the start holding a zero byte, or `none` (JavaScript `-1`). -/
def jsIndexOfZero (data : List Nat) (fromIndex : Int) : Option Nat :=
  let start : Nat := if fromIndex < 0 then (max 0 ((data.length : Int) + fromIndex)).toNat
    else fromIndex.toNat
  ((data.drop start).findIdx? (· = 0)).map (· + start)

/-- `Buffer.prototype.subarray(start, end)`: negative bounds count from the
end, both bounds are clamped to the buffer, and an empty slice results when
the end does not exceed the start. -/
def jsSubarray (data : List Nat) (start stop : Int) : List Nat :=
  let len : Int := data.length
  let s : Nat := (if start < 0 then max 0 (len + start) else min start len).toNat
  let e : Nat := (if stop < 0 then max 0 (len + stop) else min stop len).toNat
  (data.take e).drop s

/-- `buf[offset]` (JavaScript indexing: `undefined` out of range). -/
def byteAt (data : List Nat) (offset : Int) : Option Nat :=
  if offset < 0 then none else data.get? offset.toNat

/-- `Buffer.prototype.readUInt32BE`-style read of the raw 32-bit big-endian
pattern; `none` models the `RangeError` thrown when fewer than 4 bytes are
available at `offset` or the offset is negative. -/
def readUInt32BE (data : List Nat) (offset : Int) : Option Nat :=
  if offset < 0 || (data.length : Int) < offset + 4 then none
  else
    let o := offset.toNat
    some (data.getD o 0 * 16777216 + data.getD (o + 1) 0 * 65536 +
      data.getD (o + 2) 0 * 256 + data.getD (o + 3) 0)

/-- `Buffer.prototype.readInt32BE`: the unsigned pattern reinterpreted as a
two's-complement signed 32-bit integer. -/
def readInt32BE (data : List Nat) (offset : Int) : Option Int :=
  (readUInt32BE data offset).map (fun u =>
    if u < 2147483648 then (u : Int) else (u : Int) - 4294967296)

/-- WHATWG UTF-8 decoding (what `Buffer.prototype.toString('utf8')` does):
well-formed sequences become their code point, malformed bytes become
U+FFFD replacement characters with maximal-subpart resynchronisation.  The
`fuel` argument only bounds the recursion (each step consumes at least one
byte, so `fuel = length` never runs out; the `0, _ :: _` case is
unreachable then). -/
def utf8DecodeAux : Nat → List Nat → List Char
  | _, [] => []
  | 0, _ :: _ => []
  | fuel + 1, b :: rest =>
    if b ≤ 0x7F then Char.ofNat b :: utf8DecodeAux fuel rest
    else if b < 0xC2 then Char.ofNat 0xFFFD :: utf8DecodeAux fuel rest
    else if b ≤ 0xDF then
      match rest with
      | [] => [Char.ofNat 0xFFFD]
      | c1 :: r1 =>
        if 0x80 ≤ c1 && c1 ≤ 0xBF then
          Char.ofNat ((b - 0xC0) * 64 + (c1 - 0x80)) :: utf8DecodeAux fuel r1
        else Char.ofNat 0xFFFD :: utf8DecodeAux fuel (c1 :: r1)
    else if b ≤ 0xEF then
      match rest with
      | [] => [Char.ofNat 0xFFFD]
      | c1 :: r1 =>
        if (if b = 0xE0 then 0xA0 else 0x80) ≤ c1 && c1 ≤ (if b = 0xED then 0x9F else 0xBF) then
          match r1 with
          | [] => [Char.ofNat 0xFFFD]
          | c2 :: r2 =>
            if 0x80 ≤ c2 && c2 ≤ 0xBF then
              Char.ofNat ((b - 0xE0) * 4096 + (c1 - 0x80) * 64 + (c2 - 0x80)) ::
                utf8DecodeAux fuel r2
            else Char.ofNat 0xFFFD :: utf8DecodeAux fuel (c2 :: r2)
        else Char.ofNat 0xFFFD :: utf8DecodeAux fuel (c1 :: r1)
    else if b ≤ 0xF4 then
      match rest with
      | [] => [Char.ofNat 0xFFFD]
      | c1 :: r1 =>
        if (if b = 0xF0 then 0x90 else 0x80) ≤ c1 && c1 ≤ (if b = 0xF4 then 0x8F else 0xBF) then
          match r1 with
          | [] => [Char.ofNat 0xFFFD]
          | c2 :: r2 =>
            if 0x80 ≤ c2 && c2 ≤ 0xBF then
              match r2 with
              | [] => [Char.ofNat 0xFFFD]
              | c3 :: r3 =>
                if 0x80 ≤ c3 && c3 ≤ 0xBF then
                  Char.ofNat ((b - 0xF0) * 262144 + (c1 - 0x80) * 4096 +
                    (c2 - 0x80) * 64 + (c3 - 0x80)) :: utf8DecodeAux fuel r3
                else Char.ofNat 0xFFFD :: utf8DecodeAux fuel (c3 :: r3)
            else Char.ofNat 0xFFFD :: utf8DecodeAux fuel (c2 :: r2)
        else Char.ofNat 0xFFFD :: utf8DecodeAux fuel (c1 :: r1)
    else Char.ofNat 0xFFFD :: utf8DecodeAux fuel rest

/-- `buffer.toString('utf8')` over a byte slice. -/
def decodeUtf8 (l : List Nat) : String :=
  String.mk (utf8DecodeAux l.length l)

/-- `alignTo4Bytes` (`(offset + 3) & ~3`): round up to a multiple of 4
(floor division models the two's-complement bit operation). -/
def align4 (offset : Int) : Int :=
  4 * ((offset + 3).fdiv 4)

/-- `extractAddressPattern` (`src/osc/parser.ts`): scan for the zero
terminator from `offset`, UTF-8 decode, require a leading `/` (the source
calls `address.startsWith('/')`, which for the one-character prefix is
exactly "the first decoded character is `/`"), and advance to the next
4-byte boundary after the terminator. -/
def extractAddressPattern (data : List Nat) (offset : Int) :
    Except OSCError (String × Int) :=
  match jsIndexOfZero data offset with
  | none =>
    .error ⟨.INVALID_OSC_MESSAGE, "OSC address pattern not null-terminated"⟩
  | some nullIndex =>
    let chars := utf8DecodeAux (jsSubarray data offset (nullIndex : Int)).length
      (jsSubarray data offset (nullIndex : Int))
    if chars.head? ≠ some '/' then
      .error ⟨.INVALID_OSC_MESSAGE, "OSC address pattern must start with /"⟩
    else .ok (String.mk chars, align4 ((nullIndex : Int) + 1))

/-- `extractTypeTags`: require a leading comma byte, scan for the zero
terminator, decode the tag characters after the comma, advance to the next
4-byte boundary. -/
def extractTypeTags (data : List Nat) (offset : Int) :
    Except OSCError (String × Int) :=
  if (data.length : Int) ≤ offset then
    .error ⟨.INVALID_OSC_MESSAGE, "Insufficient data for type tags"⟩
  else if byteAt data offset ≠ some 0x2c then
    .error ⟨.INVALID_OSC_MESSAGE, "OSC type tags must start with comma"⟩
  else
    match jsIndexOfZero data offset with
    | none => .error ⟨.INVALID_OSC_MESSAGE, "OSC type tags not null-terminated"⟩
    | some nullIndex =>
      .ok (decodeUtf8 (jsSubarray data (offset + 1) (nullIndex : Int)),
        align4 ((nullIndex : Int) + 1))

/-- The argument loop of `extractArguments`, one iteration per type-tag
character.  Supported tags (`i`, `f`, `s`, `b`) consume their encoding and
append one argument; any other tag is skipped without consuming bytes or
appending.  The guard at the top of the loop body rejects any tag (supported
or not) once the cursor is at or past the end of the buffer.  A read that
would throw in Node (negative offset reaching `readInt32BE`/`readFloatBE`)
lands in the surrounding catch and yields `MESSAGE_PARSE_ERROR`. -/
def extractArgsLoop (data : List Nat) : List Char → Int → List OSCArg →
    Except OSCError (List OSCArg)
  | [], _, acc => .ok acc
  | tag :: rest, off, acc =>
    if (data.length : Int) ≤ off then
      .error ⟨.INVALID_OSC_MESSAGE,
        "Insufficient data for argument of type " ++ String.singleton tag⟩
    else if tag = 'i' then
      if (data.length : Int) < off + 4 then
        .error ⟨.INVALID_OSC_MESSAGE, "Insufficient data for int32 argument"⟩
      else
        match readInt32BE data off with
        | none => .error ⟨.MESSAGE_PARSE_ERROR, "Failed to extract arguments"⟩
        | some v => extractArgsLoop data rest (off + 4) (acc ++ [.int32 v])
    else if tag = 'f' then
      if (data.length : Int) < off + 4 then
        .error ⟨.INVALID_OSC_MESSAGE, "Insufficient data for float32 argument"⟩
      else
        match readUInt32BE data off with
        | none => .error ⟨.MESSAGE_PARSE_ERROR, "Failed to extract arguments"⟩
        | some bits => extractArgsLoop data rest (off + 4) (acc ++ [.float32 bits])
    else if tag = 's' then
      match jsIndexOfZero data off with
      | none => .error ⟨.INVALID_OSC_MESSAGE, "String argument not null-terminated"⟩
      | some nullIndex =>
        extractArgsLoop data rest (align4 ((nullIndex : Int) + 1))
          (acc ++ [.str (decodeUtf8 (jsSubarray data off (nullIndex : Int)))])
    else if tag = 'b' then
      if (data.length : Int) < off + 4 then
        .error ⟨.INVALID_OSC_MESSAGE, "Insufficient data for blob size"⟩
      else
        match readInt32BE data off with
        | none => .error ⟨.MESSAGE_PARSE_ERROR, "Failed to extract arguments"⟩
        | some blobSize =>
          if (data.length : Int) < off + 4 + blobSize then
            .error ⟨.INVALID_OSC_MESSAGE, "Insufficient data for blob content"⟩
          else
            extractArgsLoop data rest (align4 (off + 4 + blobSize))
              (acc ++ [.blob (jsSubarray data (off + 4) (off + 4 + blobSize))])
    else extractArgsLoop data rest off acc

/-- `extractArguments`: run the loop over the decoded tag characters. -/
def extractArguments (data : List Nat) (offset : Int) (typeTags : String) :
    Except OSCError (List OSCArg) :=
  extractArgsLoop data typeTags.toList offset []

/-- `parseOSCMessage`: minimum length 8, then address, type tags and
arguments in sequence.  `now` stands for the `new Date()` the source takes
when building the message. -/
def parseOSCMessage (data : List Nat) (sourceIp : String) (sourcePort : Nat)
    (now : Int) : Except OSCError OSCMessage :=
  if data.length < 8 then
    .error ⟨.INVALID_OSC_MESSAGE, "OSC message too short (minimum 8 bytes required)"⟩
  else
    match extractAddressPattern data 0 with
    | .error e => .error e
    | .ok (address, off1) =>
      match extractTypeTags data off1 with
      | .error e => .error e
      | .ok (typeTags, off2) =>
        match extractArguments data off2 typeTags with
        | .error e => .error e
        | .ok args =>
          .ok { timestamp := now, address := address, typeTags := typeTags,
                arguments := args, sourceIp := sourceIp, sourcePort := sourcePort }

/-- Type tags for which the decoder produces an argument (`OSCType`). -/
def isSupportedTag (c : Char) : Bool :=
  c = 'i' || c = 'f' || c = 's' || c = 'b'

/-- Endpoint lifecycle states (`OSCEndpointStatus`). -/
inductive OSCEndpointStatus where
  | active
  | stopped
  | error
deriving Repr, DecidableEq

/-- The mutable state of one `OSCEndpoint` (`src/osc/endpoint.ts`) that the
verified operations touch: identity, port, status, the owned buffer, and the
endpoint-level received counter `messageCount`. -/
structure Endpoint where
  id : String
  port : Nat
  status : OSCEndpointStatus
  messageBuffer : MessageBuffer
  messageCount : Nat
deriving Repr, DecidableEq

/-- `OSCEndpoint.isActive`. -/
def Endpoint.isActive (e : Endpoint) : Bool :=
  e.status = OSCEndpointStatus.active

/-- `OSCEndpoint.handleIncomingMessage`: parse the datagram; on a decode
error only an error event is emitted (no state change); on success the
message is handed to the buffer (which may silently filter it) and the
endpoint counter `messageCount` is incremented unconditionally. -/
def handleIncomingMessage (e : Endpoint) (data : List Nat) (sourceIp : String)
    (sourcePort : Nat) (now : Int) : Endpoint :=
  match parseOSCMessage data sourceIp sourcePort now with
  | .error _ => e
  | .ok m =>
    { e with
        messageBuffer := addMessage e.messageBuffer m
        messageCount := e.messageCount + 1 }

/-- `OSCEndpointConfig`. -/
structure OSCEndpointConfig where
  port : Nat
  bufferSize : Option Nat := none
  addressFilters : Option (List String) := none
deriving Repr, DecidableEq

/-- `CreateEndpointResponse` (`src/types/index.ts`): `status` is the string
literal the source returns. -/
structure CreateEndpointResponse where
  endpointId : String
  port : Nat
  status : String
  message : String
deriving Repr, DecidableEq

/-- `MessageQueryResponse`. -/
structure MessageQueryResponse where
  messages : List OSCMessage
  totalCount : Nat
  filteredCount : Nat
deriving Repr, DecidableEq

/-- `OSCManager` state: the registry map in insertion order (ids are unique)
plus the monotone id counter. -/
structure OSCManager where
  endpoints : List Endpoint
  nextEndpointId : Nat
deriving Repr, DecidableEq

/-- `OSCManager.findEndpointByPort`: first registered endpoint with the
port. -/
def findEndpointByPort (mgr : OSCManager) (port : Nat) : Option Endpoint :=
  mgr.endpoints.find? (fun e => e.port = port)

/-- The `OSCEndpoint` constructor's port validation. -/
def isValidPort (port : Nat) : Bool :=
  1024 ≤ port && port ≤ 65535

/-- The non-conflicting tail of `createEndpoint` (id generation, endpoint
construction, start, registration). -/
def createEndpointFresh (mgr : OSCManager) (config : OSCEndpointConfig)
    (startSucceeds : Bool) : CreateEndpointResponse × OSCManager :=
  let endpointId := "endpoint-" ++ toString mgr.nextEndpointId
  let mgr1 : OSCManager := { mgr with nextEndpointId := mgr.nextEndpointId + 1 }
  if ¬ isValidPort config.port then
    ({ endpointId := ""
       port := config.port
       status := "error"
       message := "Failed to create OSC endpoint: port validation failed" }, mgr1)
  else if startSucceeds then
    let bufferSize := match config.bufferSize with
      | some n => if n = 0 then 1000 else n
      | none => 1000
    let ep : Endpoint :=
      { id := endpointId
        port := config.port
        status := OSCEndpointStatus.active
        messageBuffer := createMessageBuffer bufferSize
          (config.addressFilters.getD [])
        messageCount := 0 }
    ({ endpointId := endpointId
       port := config.port
       status := "active"
       message := "OSC endpoint created successfully on port " ++
         toString config.port },
     { mgr1 with endpoints := mgr1.endpoints ++ [ep] })
  else
    ({ endpointId := ""
       port := config.port
       status := "error"
       message := "Failed to create OSC endpoint: start failed" }, mgr1)

/-- `OSCManager.createEndpoint`.  The socket bind is the one effect outside
the model, so its outcome is an explicit `startSucceeds` argument.  The
conflict check runs first and returns an error response without touching the
registry; otherwise the id counter is consumed, the constructor validates the
port (a validation throw is caught and surfaced as an error response), and
the endpoint is registered only after a successful start. -/
def createEndpoint (mgr : OSCManager) (config : OSCEndpointConfig)
    (startSucceeds : Bool) : CreateEndpointResponse × OSCManager :=
  match findEndpointByPort mgr config.port with
  | some existing =>
    if existing.isActive then
      ({ endpointId := ""
         port := config.port
         status := "error"
         message := "Port " ++ toString config.port ++
           " is already in use by endpoint " ++ existing.id }, mgr)
    else createEndpointFresh mgr config startSucceeds
  | none => createEndpointFresh mgr config startSucceeds

/-- `OSCManager.getMessages`: with an id, delegate to that endpoint's buffer
(passing the whole query) and report its stored count; without an id, query
every endpoint's buffer with the same query (limit included), concatenate in
registration order, re-sort the concatenation newest-first, truncate to the
limit only when it is positive, and report the sum of stored counts. -/
def managerGetMessages (mgr : OSCManager) (endpointId : Option String)
    (query : MessageQuery) : MessageQueryResponse :=
  match endpointId with
  | some eid =>
    match mgr.endpoints.find? (fun e => e.id = eid) with
    | none => { messages := [], totalCount := 0, filteredCount := 0 }
    | some e =>
      let ms := getMessages e.messageBuffer query
      { messages := ms
        totalCount := getMessageCount e.messageBuffer
        filteredCount := ms.length }
  | none =>
    let allMessages :=
      (mgr.endpoints.map (fun e => getMessages e.messageBuffer query)).flatten
    let totalCount := (mgr.endpoints.map (fun e => getMessageCount e.messageBuffer)).sum
    let sorted := sortByTimestampDesc allMessages
    let limited := match query.limit with
      | some k => if k > 0 then sorted.take k.toNat else sorted
      | none => sorted
    { messages := limited
      totalCount := totalCount
      filteredCount := limited.length }

/-- The aggregation algorithm exactly as the specification words it (for the
refinement claim about registry-wide queries): query every endpoint's store
with the caller's filters but *without* the limit, concatenate, re-sort the
concatenation by timestamp descending, apply the limit only to the combined
list, and report the sum of the stores' current counts. -/
def specAggregateMessages (mgr : OSCManager) (query : MessageQuery) :
    MessageQueryResponse :=
  let perEndpoint :=
    mgr.endpoints.map (fun e => getMessages e.messageBuffer { query with limit := none })
  let combined := sortByTimestampDesc perEndpoint.flatten
  let limited := applyLimit query.limit combined
  { messages := limited
    totalCount := (mgr.endpoints.map (fun e => getMessageCount e.messageBuffer)).sum
    filteredCount := limited.length }

/-- Inserting a list of messages into an accumulator one `insertDesc` at a
time (the tail of the insertion sort; `sortByTimestampDesc l = sortInto [] l`). -/
def sortInto (S : List OSCMessage) (l : List OSCMessage) : List OSCMessage :=
  l.foldl (fun acc m => insertDesc m acc) S

/-- Descending-timestamp order between two messages. -/
def tsGE (a b : OSCMessage) : Prop :=
  b.timestamp ≤ a.timestamp

/-- A concrete message used by witness scenarios. -/
def mkTestMsg (t : Int) (addr : String) : OSCMessage :=
  { timestamp := t, address := addr, typeTags := "", arguments := [],
    sourceIp := "127.0.0.1", sourcePort := 9000 }

/-- A concrete active endpoint on port 9000 used by witness scenarios. -/
def sampleEndpoint : Endpoint :=
  { id := "endpoint-1", port := 9000, status := OSCEndpointStatus.active,
    messageBuffer := createMessageBuffer 3 [], messageCount := 0 }

/-- A concrete registry holding `sampleEndpoint`, used by witness scenarios. -/
def sampleManager : OSCManager :=
  { endpoints := [sampleEndpoint], nextEndpointId := 2 }

/-- A concrete creation request for the already-taken port 9000. -/
def sampleConfig : OSCEndpointConfig :=
  { port := 9000 }

theorem addMessage_maxSize (b : MessageBuffer) (m : OSCMessage) :
    (addMessage b m).maxSize = b.maxSize := by
  unfold addMessage
  split
  · rfl
  · split <;> rfl

theorem addMessage_addressFilters (b : MessageBuffer) (m : OSCMessage) :
    (addMessage b m).addressFilters = b.addressFilters := by
  unfold addMessage
  split
  · rfl
  · split <;> rfl

theorem addMessage_inv (b : MessageBuffer) (m : OSCMessage)
    (h1 : b.messages.length ≤ b.maxSize)
    (h2 : b.messages.length ≤ b.totalMessagesReceived) :
    (addMessage b m).messages.length ≤ b.maxSize ∧
    (addMessage b m).messages.length ≤ (addMessage b m).totalMessagesReceived := by
  unfold addMessage
  split
  · exact ⟨h1, h2⟩
  · split
    · rename_i hlt
      constructor
      · simpa [List.length_append] using hlt
      · simp only [List.length_append, List.length_cons, List.length_nil]
        omega
    · constructor
      · simpa [List.length_set] using h1
      · simp only [List.length_set]
        omega

theorem addAll_maxSize (ms : List OSCMessage) :
    ∀ b : MessageBuffer, (addAll b ms).maxSize = b.maxSize := by
  induction ms with
  | nil => intro b; rfl
  | cons m rest ih =>
    intro b
    simp only [addAll, List.foldl_cons] at *
    rw [ih (addMessage b m), addMessage_maxSize]

theorem addAll_inv (ms : List OSCMessage) :
    ∀ b : MessageBuffer, b.messages.length ≤ b.maxSize →
      b.messages.length ≤ b.totalMessagesReceived →
      (addAll b ms).messages.length ≤ (addAll b ms).maxSize ∧
      (addAll b ms).messages.length ≤ (addAll b ms).totalMessagesReceived := by
  induction ms with
  | nil => intro b h1 h2; exact ⟨h1, h2⟩
  | cons m rest ih =>
    intro b h1 h2
    have step := addMessage_inv b m h1 h2
    simp only [addAll, List.foldl_cons] at *
    exact ih (addMessage b m) (by rw [addMessage_maxSize]; exact step.1) step.2

/-- Claim C1: for every buffer created with capacity `C` (at least 1) and
every sequence of `addMessage` calls, the stored-message count never exceeds
`C`, and the total-received counter is always at least the stored count. -/
theorem c1_buffer_invariant (C : Nat) (filters : List String)
    (ms : List OSCMessage) (hC : 1 ≤ C) :
    getMessageCount (addAll (createMessageBuffer C filters) ms) ≤ C ∧
    getMessageCount (addAll (createMessageBuffer C filters) ms) ≤
      getTotalMessagesReceived (addAll (createMessageBuffer C filters) ms) := by
  have h := addAll_inv ms (createMessageBuffer C filters)
    (by simp [createMessageBuffer]) (by simp [createMessageBuffer])
  have hmax := addAll_maxSize ms (createMessageBuffer C filters)
  refine ⟨?_, h.2⟩
  have hC2 : (createMessageBuffer C filters).maxSize = C := by
    simp only [createMessageBuffer]
    omega
  have := h.1
  rw [hmax, hC2] at this
  exact this

theorem c1_buffer_invariant_witness :
    1 ≤ 2 ∧
    (getMessageCount (addAll (createMessageBuffer 2 [])
        [mkTestMsg 1 "/a", mkTestMsg 2 "/b", mkTestMsg 3 "/c"]) ≤ 2 ∧
      getMessageCount (addAll (createMessageBuffer 2 [])
        [mkTestMsg 1 "/a", mkTestMsg 2 "/b", mkTestMsg 3 "/c"]) ≤
        getTotalMessagesReceived (addAll (createMessageBuffer 2 [])
          [mkTestMsg 1 "/a", mkTestMsg 2 "/b", mkTestMsg 3 "/c"])) :=
  ⟨by decide,
    c1_buffer_invariant 2 [] [mkTestMsg 1 "/a", mkTestMsg 2 "/b", mkTestMsg 3 "/c"]
      (by decide)⟩

theorem globMatch_self (l : List Char) (h : ∀ c ∈ l, c ≠ '*' ∧ c ≠ '?') :
    globMatch l l = true := by
  induction l with
  | nil => rfl
  | cons c cs ih =>
    have hc := h c (List.mem_cons_self c cs)
    show globMatch (c :: cs) (c :: cs) = true
    simp only [globMatch, if_neg hc.1, if_neg hc.2, beq_self_eq_true, Bool.true_and]
    exact ih (fun x hx => h x (List.mem_cons_of_mem c hx))

theorem globMatch_empty_pattern (a : List Char) (h : a ≠ []) :
    globMatch [] a = false := by
  cases a with
  | nil => exact absurd rfl h
  | cons c cs => rfl

/-- Claim C7: the matcher is fully anchored; every wildcard-free address
matches itself, the empty pattern matches no non-empty address, `*` spans a
run of characters, and `?` requires exactly one character. -/
theorem c7_matcher_laws :
    (∀ addr : String, (∀ c ∈ addr.toList, c ≠ '*' ∧ c ≠ '?') →
      matchesAddressPattern addr addr = true) ∧
    (∀ addr : String, addr ≠ "" → matchesAddressPattern addr "" = false) ∧
    matchesAddressPattern "/a/b" "/a/*" = true ∧
    matchesAddressPattern "/a/bb" "/a/?" = false := by
  refine ⟨fun addr h => globMatch_self addr.toList h, fun addr h => ?_, by decide, by decide⟩
  have hne : addr.toList ≠ [] := by
    intro hnil
    apply h
    cases addr with
    | mk data =>
      simp only [String.toList] at hnil
      rw [hnil]
  exact globMatch_empty_pattern addr.toList hne

theorem c7_matcher_laws_witness :
    ((∀ c ∈ ("/x/y" : String).toList, c ≠ '*' ∧ c ≠ '?') ∧
      matchesAddressPattern "/x/y" "/x/y" = true) ∧
    (("/z" : String) ≠ "" ∧ matchesAddressPattern "/z" "" = false) :=
  ⟨⟨by decide, c7_matcher_laws.1 "/x/y" (by decide)⟩,
    ⟨by decide, c7_matcher_laws.2.1 "/z" (by decide)⟩⟩

theorem insertDesc_perm (m : OSCMessage) (l : List OSCMessage) :
    (insertDesc m l).Perm (m :: l) := by
  induction l with
  | nil => exact List.Perm.refl _
  | cons x xs ih =>
    rw [insertDesc]
    split
    · exact (ih.cons x).trans (List.Perm.swap m x xs)
    · exact List.Perm.refl _

theorem insertDesc_sorted (m : OSCMessage) (l : List OSCMessage)
    (h : l.Pairwise tsGE) : (insertDesc m l).Pairwise tsGE := by
  induction l with
  | nil => simp [insertDesc, tsGE]
  | cons x xs ih =>
    rcases List.pairwise_cons.mp h with ⟨hx, hxs⟩
    rw [insertDesc]
    split
    · rename_i hle
      apply List.pairwise_cons.mpr
      refine ⟨?_, ih hxs⟩
      intro y hy
      rcases List.mem_cons.mp ((insertDesc_perm m xs).mem_iff.mp hy) with rfl | hyxs
      · exact hle
      · exact hx y hyxs
    · rename_i hgt
      apply List.pairwise_cons.mpr
      constructor
      · intro y hy
        rcases List.mem_cons.mp hy with rfl | hyxs
        · exact le_of_lt (lt_of_not_le hgt)
        · exact le_trans (hx y hyxs) (le_of_lt (lt_of_not_le hgt))
      · exact h

theorem sortInto_cons (S : List OSCMessage) (m : OSCMessage) (l : List OSCMessage) :
    sortInto S (m :: l) = sortInto (insertDesc m S) l := rfl

theorem sortInto_append (S : List OSCMessage) (l1 l2 : List OSCMessage) :
    sortInto S (l1 ++ l2) = sortInto (sortInto S l1) l2 :=
  List.foldl_append _ _ _ _

theorem sortInto_perm (l : List OSCMessage) :
    ∀ S : List OSCMessage, (sortInto S l).Perm (S ++ l) := by
  induction l with
  | nil => intro S; simp [sortInto]
  | cons m ls ih =>
    intro S
    rw [sortInto_cons]
    refine (ih (insertDesc m S)).trans ?_
    refine (((insertDesc_perm m S).append_right ls).trans ?_)
    exact List.perm_middle.symm

theorem sortInto_sorted (l : List OSCMessage) :
    ∀ S : List OSCMessage, S.Pairwise tsGE → (sortInto S l).Pairwise tsGE := by
  induction l with
  | nil => intro S h; exact h
  | cons m ls ih =>
    intro S h
    rw [sortInto_cons]
    exact ih _ (insertDesc_sorted m S h)

theorem sortDesc_eq_sortInto (l : List OSCMessage) :
    sortByTimestampDesc l = sortInto [] l := rfl

theorem sortDesc_perm (l : List OSCMessage) : (sortByTimestampDesc l).Perm l := by
  have := sortInto_perm l []
  simpa [sortDesc_eq_sortInto] using this

theorem sortDesc_length (l : List OSCMessage) :
    (sortByTimestampDesc l).length = l.length :=
  (sortDesc_perm l).length_eq

theorem sortDesc_sorted (l : List OSCMessage) :
    (sortByTimestampDesc l).Pairwise tsGE := by
  rw [sortDesc_eq_sortInto]
  exact sortInto_sorted l [] (List.Pairwise.nil)

theorem queryFiltered_limit_irrel (b : MessageBuffer) (q : MessageQuery) (k : Option Int) :
    queryFiltered b { q with limit := k } = queryFiltered b q := rfl

/-- Claim C6: the query limit laws of the store.  A zero limit yields the
empty result; a positive limit `k` yields the first `k` (so `min k n` many)
of the newest-first sorted matches, still sorted newest first; a negative
limit is ignored and all `n` matches are returned. -/
theorem c6_limit_laws (b : MessageBuffer) (q : MessageQuery) (k : Int) :
    getMessages b { q with limit := some 0 } = [] ∧
    (0 < k →
      getMessages b { q with limit := some k } =
        (sortByTimestampDesc (queryFiltered b q)).take k.toNat ∧
      (getMessages b { q with limit := some k }).length =
        min k.toNat (queryFiltered b q).length ∧
      (getMessages b { q with limit := some k }).Pairwise tsGE) ∧
    (k < 0 →
      getMessages b { q with limit := some k } =
        sortByTimestampDesc (queryFiltered b q) ∧
      (getMessages b { q with limit := some k }).length =
        (queryFiltered b q).length) := by
  refine ⟨rfl, fun hk => ?_, fun hk => ?_⟩
  · have hk0 : k ≠ 0 := by omega
    have heq : getMessages b { q with limit := some k } =
        (sortByTimestampDesc (queryFiltered b q)).take k.toNat := by
      simp only [getMessages, applyLimit, if_neg hk0, if_pos hk,
        queryFiltered_limit_irrel]
    refine ⟨heq, ?_, ?_⟩
    · rw [heq, List.length_take, sortDesc_length]
    · rw [heq]
      exact (sortDesc_sorted _).sublist (List.take_sublist _ _)
  · have hk0 : k ≠ 0 := by omega
    have hkneg : ¬ k > 0 := by omega
    have heq : getMessages b { q with limit := some k } =
        sortByTimestampDesc (queryFiltered b q) := by
      simp only [getMessages, applyLimit, if_neg hk0, if_neg hkneg,
        queryFiltered_limit_irrel]
    exact ⟨heq, by rw [heq, sortDesc_length]⟩

theorem c6_limit_laws_witness :
    getMessages (addAll (createMessageBuffer 5 []) [mkTestMsg 1 "/a", mkTestMsg 2 "/b"])
      { ({} : MessageQuery) with limit := some 0 } = [] ∧
    (0 < (1 : Int) ∧
      getMessages (addAll (createMessageBuffer 5 []) [mkTestMsg 1 "/a", mkTestMsg 2 "/b"])
        { ({} : MessageQuery) with limit := some 1 } =
        (sortByTimestampDesc (queryFiltered
          (addAll (createMessageBuffer 5 []) [mkTestMsg 1 "/a", mkTestMsg 2 "/b"])
          {})).take (1 : Int).toNat) ∧
    ((-1 : Int) < 0 ∧
      getMessages (addAll (createMessageBuffer 5 []) [mkTestMsg 1 "/a", mkTestMsg 2 "/b"])
        { ({} : MessageQuery) with limit := some (-1) } =
        sortByTimestampDesc (queryFiltered
          (addAll (createMessageBuffer 5 []) [mkTestMsg 1 "/a", mkTestMsg 2 "/b"])
          {})) :=
  ⟨(c6_limit_laws (addAll (createMessageBuffer 5 [])
      [mkTestMsg 1 "/a", mkTestMsg 2 "/b"]) {} 1).1,
    ⟨by decide, ((c6_limit_laws (addAll (createMessageBuffer 5 [])
      [mkTestMsg 1 "/a", mkTestMsg 2 "/b"]) {} 1).2.1 (by decide)).1⟩,
    ⟨by decide, ((c6_limit_laws (addAll (createMessageBuffer 5 [])
      [mkTestMsg 1 "/a", mkTestMsg 2 "/b"]) {} (-1)).2.2 (by decide)).1⟩⟩

/-- Claim C8: growing `resizeBuffer` (new capacity at least the old one, for
a buffer satisfying its size invariant) keeps every stored entry unchanged;
shrinking to `newCap` below the stored count keeps exactly the `newCap`
newest entries by timestamp (the prefix of the newest-first re-sort). -/
theorem c8_resize (b : MessageBuffer) (newCap : Nat) :
    (b.messages.length ≤ b.maxSize → b.maxSize ≤ newCap →
      (resizeBuffer b newCap).messages = b.messages) ∧
    (1 ≤ newCap → newCap < b.messages.length →
      (resizeBuffer b newCap).messages =
        (sortByTimestampDesc b.messages).take newCap) := by
  constructor
  · intro h1 h2
    have hle : b.messages.length ≤ max 1 newCap := by omega
    simp only [resizeBuffer, if_pos hle]
  · intro h1 h2
    have hmax : max 1 newCap = newCap := by omega
    simp only [resizeBuffer, hmax]
    rw [if_neg (by omega)]

theorem c8_resize_witness :
    ((addAll (createMessageBuffer 2 []) [mkTestMsg 1 "/a", mkTestMsg 2 "/b"]).messages.length ≤
        (addAll (createMessageBuffer 2 []) [mkTestMsg 1 "/a", mkTestMsg 2 "/b"]).maxSize ∧
      (addAll (createMessageBuffer 2 []) [mkTestMsg 1 "/a", mkTestMsg 2 "/b"]).maxSize ≤ 4 ∧
      (resizeBuffer (addAll (createMessageBuffer 2 [])
          [mkTestMsg 1 "/a", mkTestMsg 2 "/b"]) 4).messages =
        (addAll (createMessageBuffer 2 []) [mkTestMsg 1 "/a", mkTestMsg 2 "/b"]).messages) ∧
    (1 ≤ 1 ∧
      1 < (addAll (createMessageBuffer 2 []) [mkTestMsg 1 "/a", mkTestMsg 2 "/b"]).messages.length ∧
      (resizeBuffer (addAll (createMessageBuffer 2 [])
          [mkTestMsg 1 "/a", mkTestMsg 2 "/b"]) 1).messages =
        (sortByTimestampDesc (addAll (createMessageBuffer 2 [])
          [mkTestMsg 1 "/a", mkTestMsg 2 "/b"]).messages).take 1) :=
  ⟨⟨by decide, by decide,
      (c8_resize (addAll (createMessageBuffer 2 []) [mkTestMsg 1 "/a", mkTestMsg 2 "/b"]) 4).1
        (by decide) (by decide)⟩,
    ⟨by decide, by decide,
      (c8_resize (addAll (createMessageBuffer 2 []) [mkTestMsg 1 "/a", mkTestMsg 2 "/b"]) 1).2
        (by decide) (by decide)⟩⟩

/-- Claim C10: after a shrinking resize the stored array is reordered
newest-first and the write index resets to 0, so the very next at-capacity
insertion overwrites slot 0 — the *newest* stored message — rather than the
oldest-inserted one: fill a capacity-3 buffer with timestamps 1, 2, 3,
shrink to 2 (keeping 3 and 2, write index 0), then add timestamp 4: the
evicted entry is the timestamp-3 message (most recently stored), while the
older timestamp-2 message survives. -/
theorem c10_resize_breaks_fifo :
    (updateConfig (addAll (createMessageBuffer 3 [])
        [mkTestMsg 1 "/m1", mkTestMsg 2 "/m2", mkTestMsg 3 "/m3"]) (some 2) none).messages =
      [mkTestMsg 3 "/m3", mkTestMsg 2 "/m2"] ∧
    (updateConfig (addAll (createMessageBuffer 3 [])
        [mkTestMsg 1 "/m1", mkTestMsg 2 "/m2", mkTestMsg 3 "/m3"]) (some 2) none).writeIndex = 0 ∧
    (addMessage (updateConfig (addAll (createMessageBuffer 3 [])
        [mkTestMsg 1 "/m1", mkTestMsg 2 "/m2", mkTestMsg 3 "/m3"]) (some 2) none)
        (mkTestMsg 4 "/m4")).messages =
      [mkTestMsg 4 "/m4", mkTestMsg 2 "/m2"] ∧
    mkTestMsg 3 "/m3" ∉ (addMessage (updateConfig (addAll (createMessageBuffer 3 [])
        [mkTestMsg 1 "/m1", mkTestMsg 2 "/m2", mkTestMsg 3 "/m3"]) (some 2) none)
        (mkTestMsg 4 "/m4")).messages ∧
    mkTestMsg 2 "/m2" ∈ (addMessage (updateConfig (addAll (createMessageBuffer 3 [])
        [mkTestMsg 1 "/m1", mkTestMsg 2 "/m2", mkTestMsg 3 "/m3"]) (some 2) none)
        (mkTestMsg 4 "/m4")).messages := by decide

/-- Claim C2 counterexample: a datagram whose address `/a` matches no filter
of the non-empty set `["/synth/*"]` parses successfully, is not stored, yet
the endpoint counter `messageCount` (the `totalReceived` counter of the
endpoint) *is* incremented — `handleIncomingMessage` bumps it on every
successful parse before/regardless of the buffer filter. -/
theorem c2_counterexample :
    matchesAddressPattern "/a" "/synth/*" = false ∧
    (handleIncomingMessage
        { id := "endpoint-1", port := 9000, status := OSCEndpointStatus.active,
          messageBuffer := createMessageBuffer 5 ["/synth/*"], messageCount := 0 }
        [0x2f, 0x61, 0, 0, 0x2c, 0, 0, 0] "10.0.0.1" 7000 0).messageBuffer.messages = [] ∧
    (handleIncomingMessage
        { id := "endpoint-1", port := 9000, status := OSCEndpointStatus.active,
          messageBuffer := createMessageBuffer 5 ["/synth/*"], messageCount := 0 }
        [0x2f, 0x61, 0, 0, 0x2c, 0, 0, 0] "10.0.0.1" 7000 0).messageCount = 1 := by
  refine ⟨by decide, by decide, by decide⟩

/-- Claim C2 (amended): for every successfully parsed message whose address
matches none of a non-empty filter set, the message buffer is left completely
unchanged (not stored, buffer counter untouched), but the owning endpoint's
`messageCount` counter is incremented all the same. -/
theorem c2_filtered_message (e : Endpoint) (data : List Nat) (ip : String)
    (port : Nat) (now : Int) (m : OSCMessage)
    (hparse : parseOSCMessage data ip port now = Except.ok m)
    (hfilters : e.messageBuffer.addressFilters ≠ [])
    (hnomatch : ∀ f ∈ e.messageBuffer.addressFilters,
      matchesAddressPattern m.address f = false) :
    (handleIncomingMessage e data ip port now).messageBuffer = e.messageBuffer ∧
    (handleIncomingMessage e data ip port now).messageCount = e.messageCount + 1 := by
  have hacc : acceptsMessage e.messageBuffer m = false := by
    unfold acceptsMessage
    rw [Bool.or_eq_false_iff]
    constructor
    · rw [List.isEmpty_eq_false]
      exact hfilters
    · rw [List.any_eq_false]
      intro f hf
      rw [hnomatch f hf]
      exact Bool.false_ne_true
  unfold handleIncomingMessage
  rw [hparse]
  constructor
  · simp [addMessage, hacc]
  · rfl

theorem c2_filtered_message_witness :
    parseOSCMessage [0x2f, 0x61, 0, 0, 0x2c, 0, 0, 0] "10.0.0.1" 7000 0 =
      Except.ok { timestamp := 0, address := "/a", typeTags := "", arguments := [],
                  sourceIp := "10.0.0.1", sourcePort := 7000 } ∧
    ({ id := "endpoint-1", port := 9000, status := OSCEndpointStatus.active,
        messageBuffer := createMessageBuffer 5 ["/synth/*"],
        messageCount := 0 } : Endpoint).messageBuffer.addressFilters ≠ [] ∧
    (handleIncomingMessage
        { id := "endpoint-1", port := 9000, status := OSCEndpointStatus.active,
          messageBuffer := createMessageBuffer 5 ["/synth/*"], messageCount := 0 }
        [0x2f, 0x61, 0, 0, 0x2c, 0, 0, 0] "10.0.0.1" 7000 0).messageBuffer =
      ({ id := "endpoint-1", port := 9000, status := OSCEndpointStatus.active,
          messageBuffer := createMessageBuffer 5 ["/synth/*"],
          messageCount := 0 } : Endpoint).messageBuffer ∧
    (handleIncomingMessage
        { id := "endpoint-1", port := 9000, status := OSCEndpointStatus.active,
          messageBuffer := createMessageBuffer 5 ["/synth/*"], messageCount := 0 }
        [0x2f, 0x61, 0, 0, 0x2c, 0, 0, 0] "10.0.0.1" 7000 0).messageCount = 0 + 1 :=
  ⟨by rfl, by decide,
    c2_filtered_message _ _ _ _ _ _ (by rfl) (by decide) (by decide)⟩

theorem extractArgsLoop_count (data : List Nat) (tags : List Char) :
    ∀ (off : Int) (acc args : List OSCArg),
      extractArgsLoop data tags off acc = Except.ok args →
      args.length = acc.length + tags.countP isSupportedTag := by
  induction tags with
  | nil =>
    intro off acc args h
    rw [extractArgsLoop] at h
    cases h
    simp
  | cons c rest ih =>
    intro off acc args h
    rw [extractArgsLoop] at h
    by_cases h1 : (data.length : Int) ≤ off
    · rw [if_pos h1] at h
      exact Except.noConfusion h
    · rw [if_neg h1] at h
      by_cases hci : c = 'i'
      · rw [if_pos hci] at h
        by_cases h2 : (data.length : Int) < off + 4
        · rw [if_pos h2] at h
          exact Except.noConfusion h
        · rw [if_neg h2] at h
          cases hread : readInt32BE data off with
          | none => rw [hread] at h; exact Except.noConfusion h
          | some v =>
            rw [hread] at h
            rw [ih _ _ _ h, List.countP_cons, if_pos (by rw [hci]; rfl)]
            simp only [List.length_append, List.length_cons, List.length_nil]
            omega
      · rw [if_neg hci] at h
        by_cases hcf : c = 'f'
        · rw [if_pos hcf] at h
          by_cases h2 : (data.length : Int) < off + 4
          · rw [if_pos h2] at h
            exact Except.noConfusion h
          · rw [if_neg h2] at h
            cases hread : readUInt32BE data off with
            | none => rw [hread] at h; exact Except.noConfusion h
            | some bits =>
              rw [hread] at h
              rw [ih _ _ _ h, List.countP_cons, if_pos (by rw [hcf]; rfl)]
              simp only [List.length_append, List.length_cons, List.length_nil]
              omega
        · rw [if_neg hcf] at h
          by_cases hcs : c = 's'
          · rw [if_pos hcs] at h
            cases hidx : jsIndexOfZero data off with
            | none => rw [hidx] at h; exact Except.noConfusion h
            | some nullIndex =>
              rw [hidx] at h
              rw [ih _ _ _ h, List.countP_cons, if_pos (by rw [hcs]; rfl)]
              simp only [List.length_append, List.length_cons, List.length_nil]
              omega
          · rw [if_neg hcs] at h
            by_cases hcb : c = 'b'
            · rw [if_pos hcb] at h
              by_cases h2 : (data.length : Int) < off + 4
              · rw [if_pos h2] at h
                exact Except.noConfusion h
              · rw [if_neg h2] at h
                cases hread : readInt32BE data off with
                | none => rw [hread] at h; exact Except.noConfusion h
                | some blobSize =>
                  rw [hread] at h
                  by_cases h3 : (data.length : Int) < off + 4 + blobSize
                  · simp only [if_pos h3] at h
                    exact Except.noConfusion h
                  · simp only [if_neg h3] at h
                    rw [ih _ _ _ h, List.countP_cons, if_pos (by rw [hcb]; rfl)]
                    simp only [List.length_append, List.length_cons, List.length_nil]
                    omega
            · rw [if_neg hcb] at h
              rw [ih _ _ _ h, List.countP_cons,
                if_neg (by simp [isSupportedTag, hci, hcf, hcs, hcb])]
              omega

/-- Claim C3 counterexample: the 8-byte packet `/a\0\0,x\0\0` has the single
unsupported type tag `x` and no argument bytes; the claim says an unsupported
tag never fails, but the decoder's insufficient-data guard fires for `x`
because the cursor is already at the end of the buffer, so decoding fails. -/
theorem c3_counterexample :
    isSupportedTag 'x' = false ∧
    parseOSCMessage [0x2f, 0x61, 0, 0, 0x2c, 0x78, 0, 0] "10.0.0.1" 7000 0 =
      Except.error ⟨ErrorCode.INVALID_OSC_MESSAGE,
        "Insufficient data for argument of type x"⟩ :=
  ⟨by decide, by rfl⟩

/-- Claim C3 (amended): for every packet that decodes successfully,
`arguments.length` equals the number of supported tags in `typeTags`; an
unsupported tag with the cursor still strictly inside the buffer consumes no
bytes, appends no argument, and decoding continues with the next tag; but
any tag — unsupported ones included — reached when the cursor is already at
or past the end of the buffer fails decoding with an insufficient-data
error. -/
theorem c3_unsupported_tags :
    (∀ (data : List Nat) (ip : String) (port : Nat) (now : Int) (m : OSCMessage),
      parseOSCMessage data ip port now = Except.ok m →
      m.arguments.length = m.typeTags.toList.countP isSupportedTag) ∧
    (∀ (data : List Nat) (tags : List Char) (off : Int) (acc : List OSCArg)
      (c : Char), isSupportedTag c = false → off < (data.length : Int) →
      extractArgsLoop data (c :: tags) off acc = extractArgsLoop data tags off acc) ∧
    (∀ (data : List Nat) (tags : List Char) (off : Int) (acc : List OSCArg)
      (c : Char), (data.length : Int) ≤ off →
      extractArgsLoop data (c :: tags) off acc =
        Except.error ⟨ErrorCode.INVALID_OSC_MESSAGE,
          "Insufficient data for argument of type " ++ String.singleton c⟩) := by
  refine ⟨?_, ?_, ?_⟩
  · intro data ip port now m h
    unfold parseOSCMessage at h
    split at h
    · exact Except.noConfusion h
    · split at h
      · exact Except.noConfusion h
      · split at h
        · exact Except.noConfusion h
        · split at h
          · exact Except.noConfusion h
          · next args heq3 =>
            cases h
            simpa using extractArgsLoop_count data _ _ [] args heq3
  · intro data tags off acc c hc hoff
    have hsup := hc
    simp only [isSupportedTag, Bool.or_eq_false_iff, decide_eq_false_iff_not] at hsup
    rw [extractArgsLoop, if_neg (not_le.mpr hoff), if_neg hsup.1.1.1,
      if_neg hsup.1.1.2, if_neg hsup.1.2, if_neg hsup.2]
  · intro data tags off acc c hoff
    rw [extractArgsLoop, if_pos hoff]

theorem c3_unsupported_tags_witness :
    (parseOSCMessage [0x2f, 0x61, 0, 0, 0x2c, 0x78, 0x69, 0, 0, 0, 0, 42] "ip" 7000 0 =
      Except.ok { timestamp := 0, address := "/a", typeTags := "xi",
                  arguments := [OSCArg.int32 42], sourceIp := "ip", sourcePort := 7000 } ∧
      ({ timestamp := 0, address := "/a", typeTags := "xi",
         arguments := [OSCArg.int32 42], sourceIp := "ip",
         sourcePort := 7000 } : OSCMessage).arguments.length =
        ({ timestamp := 0, address := "/a", typeTags := "xi",
           arguments := [OSCArg.int32 42], sourceIp := "ip",
           sourcePort := 7000 } : OSCMessage).typeTags.toList.countP isSupportedTag) ∧
    (isSupportedTag 'x' = false ∧ (8 : Int) < ((12 : Nat) : Int) ∧
      extractArgsLoop [0x2f, 0x61, 0, 0, 0x2c, 0x78, 0x69, 0, 0, 0, 0, 42]
        ['x', 'i'] 8 [] =
      extractArgsLoop [0x2f, 0x61, 0, 0, 0x2c, 0x78, 0x69, 0, 0, 0, 0, 42] ['i'] 8 []) ∧
    ((([0x2f, 0x61, 0, 0, 0x2c, 0x78, 0, 0] : List Nat).length : Int) ≤ 8 ∧
      extractArgsLoop [0x2f, 0x61, 0, 0, 0x2c, 0x78, 0, 0] ['x'] 8 [] =
        Except.error ⟨ErrorCode.INVALID_OSC_MESSAGE,
          "Insufficient data for argument of type " ++ String.singleton 'x'⟩) := by
  refine ⟨⟨by rfl, ?_⟩, ⟨by decide, by decide, ?_⟩, by decide, ?_⟩
  · exact c3_unsupported_tags.1 [0x2f, 0x61, 0, 0, 0x2c, 0x78, 0x69, 0, 0, 0, 0, 42]
      "ip" 7000 0 _ (by rfl)
  · have hlen : (8 : Int) < (([0x2f, 0x61, 0, 0, 0x2c, 0x78, 0x69, 0, 0, 0, 0, 42] :
        List Nat).length : Int) := by decide
    exact c3_unsupported_tags.2.1 _ ['i'] 8 [] 'x' (by decide) hlen
  · have hlen : ((([0x2f, 0x61, 0, 0, 0x2c, 0x78, 0, 0] : List Nat).length : Int)) ≤ 8 := by
      decide
    exact c3_unsupported_tags.2.2 _ ['x'] 8 [] 'x' hlen

/-- Claim C9: when a currently-active endpoint already owns the requested
port, `createEndpoint` returns an error result whose message cites the port
conflict (no exception path is taken), registers no new endpoint, and leaves
the registry — including the existing endpoint and the id counter — exactly
as it was. -/
theorem c9_port_conflict (mgr : OSCManager) (config : OSCEndpointConfig)
    (startSucceeds : Bool) (e : Endpoint)
    (hfind : findEndpointByPort mgr config.port = some e)
    (hactive : e.isActive = true) :
    createEndpoint mgr config startSucceeds =
      ({ endpointId := "", port := config.port, status := "error",
         message := "Port " ++ toString config.port ++
           " is already in use by endpoint " ++ e.id }, mgr) := by
  unfold createEndpoint
  rw [hfind]
  simp [hactive]

theorem c9_port_conflict_witness :
    findEndpointByPort sampleManager sampleConfig.port = some sampleEndpoint ∧
    sampleEndpoint.isActive = true ∧
    createEndpoint sampleManager sampleConfig true =
      ({ endpointId := "", port := sampleConfig.port, status := "error",
         message := "Port " ++ toString sampleConfig.port ++
           " is already in use by endpoint " ++ sampleEndpoint.id },
       sampleManager) :=
  ⟨by decide, by decide,
    c9_port_conflict sampleManager sampleConfig true sampleEndpoint
      (by decide) (by decide)⟩

theorem addAll_addressFilters (ms : List OSCMessage) :
    ∀ b : MessageBuffer, (addAll b ms).addressFilters = b.addressFilters := by
  induction ms with
  | nil => intro b; rfl
  | cons m rest ih =>
    intro b
    simp only [addAll, List.foldl_cons] at *
    rw [ih (addMessage b m), addMessage_addressFilters]

theorem acceptsMessage_congr (b b' : MessageBuffer) (m : OSCMessage)
    (h : b.addressFilters = b'.addressFilters) :
    acceptsMessage b m = acceptsMessage b' m := by
  unfold acceptsMessage
  rw [h]

/-- The circular-overwrite step: adding an accepted message to a full buffer
(write index in range) drops the head of the insertion-order view and appends
the new message at its tail. -/
theorem chron_addMessage_full (b : MessageBuffer) (m : OSCMessage)
    (hacc : acceptsMessage b m = true)
    (hfull : b.messages.length = b.maxSize)
    (hwi : b.writeIndex < b.maxSize) :
    chron (addMessage b m) = (chron b).drop 1 ++ [m] ∧
    (addMessage b m).writeIndex = (b.writeIndex + 1) % b.maxSize ∧
    (addMessage b m).messages.length = b.maxSize := by
  have hnotlt : ¬ b.messages.length < b.maxSize := by omega
  have hstep : addMessage b m =
      { b with
          messages := b.messages.set b.writeIndex m
          writeIndex := (b.writeIndex + 1) % b.maxSize
          totalMessagesReceived := b.totalMessagesReceived + 1 } := by
    unfold addMessage
    rw [if_neg (by simp [hacc]), if_neg hnotlt]
  set l := b.messages with hl
  set wi := b.writeIndex with hwidef
  have hwil : wi < l.length := by omega
  have hset : l.set wi m = l.take wi ++ m :: l.drop (wi + 1) := by
    rw [List.set_eq_take_append_cons_drop, if_pos hwil]
  refine ⟨?_, by rw [hstep], by rw [hstep]; simpa [List.length_set] using hfull⟩
  rw [hstep]
  unfold chron
  simp only
  by_cases hlast : wi + 1 = b.maxSize
  · have hmod : (wi + 1) % b.maxSize = 0 := by
      rw [hlast, Nat.mod_self]
    rw [hmod, List.drop_zero, List.take_zero, List.append_nil, hset]
    have hdropn : l.drop (wi + 1) = [] := by
      apply List.drop_eq_nil_of_le
      omega
    rw [hdropn]
    have hchron : (l.drop wi ++ l.take wi).drop 1 = l.drop (wi + 1) ++ l.take wi := by
      rw [List.drop_append_of_le_length (by simp [List.length_drop]; omega),
        List.drop_drop]
    rw [hchron, hdropn, List.nil_append]
  · have hlt : wi + 1 < b.maxSize := by omega
    have hmod : (wi + 1) % b.maxSize = wi + 1 := Nat.mod_eq_of_lt hlt
    rw [hmod, hset]
    have hlen_take : (l.take wi).length = wi := by
      rw [List.length_take]
      omega
    have hdrop : (l.take wi ++ m :: l.drop (wi + 1)).drop (wi + 1) = l.drop (wi + 1) := by
      rw [List.drop_append_eq_append_drop, hlen_take]
      have h1 : (l.take wi).drop (wi + 1) = [] := by
        apply List.drop_eq_nil_of_le
        omega
      have h2 : wi + 1 - wi = 1 := by omega
      rw [h1, h2, List.nil_append, List.drop_one, List.tail_cons]
    have htake : (l.take wi ++ m :: l.drop (wi + 1)).take (wi + 1) = l.take wi ++ [m] := by
      rw [List.take_append_eq_append_take, hlen_take]
      have h1 : (l.take wi).take (wi + 1) = l.take wi := by
        apply List.take_of_length_le
        omega
      have h2 : wi + 1 - wi = 1 := by omega
      rw [h1, h2, List.take_cons, List.take_zero]
      omega
    rw [hdrop, htake]
    have hchron : (l.drop wi ++ l.take wi).drop 1 = l.drop (wi + 1) ++ l.take wi := by
      rw [List.drop_append_of_le_length (by simp [List.length_drop]; omega),
        List.drop_drop]
    rw [hchron, List.append_assoc]

/-- State of the buffer after folding an accepted message sequence into a
fresh buffer of capacity `N` (at least 1): the stored count saturates at `N`,
the write index cycles as `(k - N) % N`, and the insertion-order view of the
store is exactly the last `N` messages of the sequence. -/
theorem addAll_state (N : Nat) (filters : List String) (hN : 1 ≤ N)
    (ms : List OSCMessage)
    (hacc : ∀ x ∈ ms, acceptsMessage (createMessageBuffer N filters) x = true) :
    (addAll (createMessageBuffer N filters) ms).messages.length = min ms.length N ∧
    (addAll (createMessageBuffer N filters) ms).writeIndex = (ms.length - N) % N ∧
    chron (addAll (createMessageBuffer N filters) ms) = takeLast N ms := by
  induction ms using List.reverseRecOn with
  | nil =>
    refine ⟨by simp [addAll, createMessageBuffer], by simp [addAll, createMessageBuffer], ?_⟩
    simp [addAll, createMessageBuffer, chron, takeLast]
  | append_singleton ms x ih =>
    have hacc_ms : ∀ y ∈ ms, acceptsMessage (createMessageBuffer N filters) y = true :=
      fun y hy => hacc y (List.mem_append_left _ hy)
    have hacc_x : acceptsMessage (createMessageBuffer N filters) x = true :=
      hacc x (List.mem_append_right _ (List.mem_singleton_self x))
    obtain ⟨ihlen, ihwi, ihchron⟩ := ih hacc_ms
    have hsplit : addAll (createMessageBuffer N filters) (ms ++ [x]) =
        addMessage (addAll (createMessageBuffer N filters) ms) x := by
      unfold addAll
      rw [List.foldl_append]
      rfl
    have hmaxbb : (addAll (createMessageBuffer N filters) ms).maxSize = N := by
      rw [addAll_maxSize]
      simp only [createMessageBuffer]
      omega
    have haccbb : acceptsMessage (addAll (createMessageBuffer N filters) ms) x = true := by
      rw [acceptsMessage_congr _ (createMessageBuffer N filters) x
        (addAll_addressFilters _ _)]
      exact hacc_x
    by_cases hcase : ms.length < N
    · have hwi0 : (addAll (createMessageBuffer N filters) ms).writeIndex = 0 := by
        rw [ihwi]
        have : ms.length - N = 0 := by omega
        rw [this, Nat.zero_mod]
      have hnotfull : (addAll (createMessageBuffer N filters) ms).messages.length <
          (addAll (createMessageBuffer N filters) ms).maxSize := by
        rw [ihlen, hmaxbb]
        omega
      have hadd : addMessage (addAll (createMessageBuffer N filters) ms) x =
          { addAll (createMessageBuffer N filters) ms with
              messages := (addAll (createMessageBuffer N filters) ms).messages ++ [x]
              totalMessagesReceived :=
                (addAll (createMessageBuffer N filters) ms).totalMessagesReceived + 1 } := by
        unfold addMessage
        rw [if_neg (by simp [haccbb]), if_pos hnotfull]
      have hmsgs : (addAll (createMessageBuffer N filters) ms).messages = ms := by
        have := ihchron
        unfold chron at this
        rw [hwi0, List.drop_zero, List.take_zero, List.append_nil] at this
        rw [this]
        unfold takeLast
        have : ms.length - N = 0 := by omega
        rw [this, List.drop_zero]
      rw [hsplit, hadd]
      refine ⟨?_, ?_, ?_⟩
      · simp only [List.length_append, List.length_cons, List.length_nil, ihlen]
        omega
      · simp only [hwi0, List.length_append, List.length_cons, List.length_nil]
        have : ms.length + 1 - N = 0 := by omega
        rw [this, Nat.zero_mod]
      · unfold chron
        simp only [hwi0, List.drop_zero, List.take_zero, List.append_nil]
        rw [hmsgs]
        unfold takeLast
        have : (ms ++ [x]).length - N = 0 := by
          simp only [List.length_append, List.length_cons, List.length_nil]
          omega
        rw [this, List.drop_zero]
    · have hfull : (addAll (createMessageBuffer N filters) ms).messages.length =
          (addAll (createMessageBuffer N filters) ms).maxSize := by
        rw [ihlen, hmaxbb]
        omega
      have hwilt : (addAll (createMessageBuffer N filters) ms).writeIndex <
          (addAll (createMessageBuffer N filters) ms).maxSize := by
        rw [ihwi, hmaxbb]
        exact Nat.mod_lt _ (by omega)
      obtain ⟨hchron2, hwi2, hlen2⟩ :=
        chron_addMessage_full _ x haccbb hfull hwilt
      rw [hsplit]
      refine ⟨?_, ?_, ?_⟩
      · rw [hlen2, hmaxbb]
        simp only [List.length_append, List.length_cons, List.length_nil]
        omega
      · rw [hwi2, ihwi, hmaxbb]
        rw [Nat.mod_add_mod]
        congr 1
        simp only [List.length_append, List.length_cons, List.length_nil]
        omega
      · rw [hchron2, ihchron]
        unfold takeLast
        rw [List.drop_drop]
        rw [List.drop_append_of_le_length (by simp; omega)]
        congr 2
        simp only [List.length_append, List.length_cons, List.length_nil]
        omega

/-- Claim C4: a store at full capacity `N`, reached by `N` or more accepted
`addMessage` calls with no resize, on the next accepted insertion retains
exactly the `N - 1` most-recently-inserted prior entries followed by the new
message — so the single oldest-inserted entry is the one no longer stored. -/
theorem c4_fifo_eviction (N : Nat) (filters : List String)
    (prior : List OSCMessage) (m : OSCMessage) (hN : 1 ≤ N)
    (hlen : N ≤ prior.length)
    (haccP : ∀ x ∈ prior, acceptsMessage (createMessageBuffer N filters) x = true)
    (haccM : acceptsMessage (createMessageBuffer N filters) m = true) :
    chron (addMessage (addAll (createMessageBuffer N filters) prior) m) =
      takeLast (N - 1) prior ++ [m] ∧
    chron (addAll (createMessageBuffer N filters) prior) = takeLast N prior ∧
    (addMessage (addAll (createMessageBuffer N filters) prior) m).messages.length = N := by
  obtain ⟨hlenS, hwiS, hchronS⟩ := addAll_state N filters hN prior haccP
  have hmaxbb : (addAll (createMessageBuffer N filters) prior).maxSize = N := by
    rw [addAll_maxSize]
    simp only [createMessageBuffer]
    omega
  have hfull : (addAll (createMessageBuffer N filters) prior).messages.length =
      (addAll (createMessageBuffer N filters) prior).maxSize := by
    rw [hlenS, hmaxbb]
    omega
  have hwilt : (addAll (createMessageBuffer N filters) prior).writeIndex <
      (addAll (createMessageBuffer N filters) prior).maxSize := by
    rw [hwiS, hmaxbb]
    exact Nat.mod_lt _ (by omega)
  have haccbb : acceptsMessage (addAll (createMessageBuffer N filters) prior) m = true := by
    rw [acceptsMessage_congr _ (createMessageBuffer N filters) m
      (addAll_addressFilters _ _)]
    exact haccM
  obtain ⟨hchron2, _, hlen2⟩ := chron_addMessage_full _ m haccbb hfull hwilt
  refine ⟨?_, hchronS, by rw [hlen2, hmaxbb]⟩
  rw [hchron2, hchronS]
  unfold takeLast
  rw [List.drop_drop]
  congr 2
  omega

theorem c4_fifo_eviction_witness :
    1 ≤ 2 ∧ 2 ≤ ([mkTestMsg 1 "/a", mkTestMsg 2 "/b", mkTestMsg 3 "/c"] :
      List OSCMessage).length ∧
    chron (addMessage (addAll (createMessageBuffer 2 [])
        [mkTestMsg 1 "/a", mkTestMsg 2 "/b", mkTestMsg 3 "/c"]) (mkTestMsg 4 "/d")) =
      takeLast (2 - 1) [mkTestMsg 1 "/a", mkTestMsg 2 "/b", mkTestMsg 3 "/c"] ++
        [mkTestMsg 4 "/d"] ∧
    chron (addAll (createMessageBuffer 2 [])
        [mkTestMsg 1 "/a", mkTestMsg 2 "/b", mkTestMsg 3 "/c"]) =
      takeLast 2 [mkTestMsg 1 "/a", mkTestMsg 2 "/b", mkTestMsg 3 "/c"] :=
  ⟨by decide, by decide,
    (c4_fifo_eviction 2 [] [mkTestMsg 1 "/a", mkTestMsg 2 "/b", mkTestMsg 3 "/c"]
      (mkTestMsg 4 "/d") (by decide) (by decide) (by decide) (by decide)).1,
    (c4_fifo_eviction 2 [] [mkTestMsg 1 "/a", mkTestMsg 2 "/b", mkTestMsg 3 "/c"]
      (mkTestMsg 4 "/d") (by decide) (by decide) (by decide) (by decide)).2.1⟩

theorem take_insertDesc_congr (k : Nat) :
    ∀ (S S' : List OSCMessage) (m : OSCMessage), S.take k = S'.take k →
      (insertDesc m S).take k = (insertDesc m S').take k := by
  induction k with
  | zero => intro S S' m _; simp
  | succ k ih =>
    intro S S' m h
    match S, S' with
    | [], [] => rfl
    | [], y :: ys => simp at h
    | x :: xs, [] => simp at h
    | x :: xs, y :: ys =>
      have hk : (x :: xs).take k = (y :: ys).take k := by
        have h2 := congrArg (List.take k) h
        rwa [List.take_take, List.take_take,
          Nat.min_eq_left (Nat.le_succ k)] at h2
      have hxy : x = y ∧ xs.take k = ys.take k := by
        rw [List.take_succ_cons, List.take_succ_cons] at h
        exact ⟨(List.cons.injEq _ _ _ _).mp h |>.1, (List.cons.injEq _ _ _ _).mp h |>.2⟩
      obtain ⟨rfl, htail⟩ := hxy
      rw [insertDesc, insertDesc]
      by_cases hc : m.timestamp ≤ x.timestamp
      · rw [if_pos hc, if_pos hc, List.take_succ_cons, List.take_succ_cons,
          ih xs ys m htail]
      · rw [if_neg hc, if_neg hc, List.take_succ_cons, List.take_succ_cons, hk]

theorem take_sortInto_congr (k : Nat) (l : List OSCMessage) :
    ∀ S S' : List OSCMessage, S.take k = S'.take k →
      (sortInto S l).take k = (sortInto S' l).take k := by
  induction l with
  | nil => intro S S' h; exact h
  | cons m ls ih =>
    intro S S' h
    rw [sortInto_cons, sortInto_cons]
    exact ih _ _ (take_insertDesc_congr k S S' m h)

theorem take_insertDesc_of_count (m : OSCMessage) :
    ∀ (S : List OSCMessage) (k : Nat), S.Pairwise tsGE →
      k ≤ S.countP (fun x => decide (m.timestamp ≤ x.timestamp)) →
      (insertDesc m S).take k = S.take k := by
  intro S
  induction S with
  | nil =>
    intro k _ hcnt
    simp only [List.countP_nil, Nat.le_zero] at hcnt
    subst hcnt
    simp
  | cons x xs ih =>
    intro k hsorted hcnt
    rcases List.pairwise_cons.mp hsorted with ⟨hx, hxs⟩
    by_cases hc : m.timestamp ≤ x.timestamp
    · rw [insertDesc, if_pos hc]
      cases k with
      | zero => simp
      | succ k2 =>
        rw [List.take_succ_cons, List.take_succ_cons]
        congr 1
        apply ih k2 hxs
        rw [List.countP_cons, if_pos (by simpa using hc)] at hcnt
        omega
    · have hcount0 : (x :: xs).countP
          (fun y => decide (m.timestamp ≤ y.timestamp)) = 0 := by
        rw [List.countP_eq_zero]
        intro y hy
        simp only [decide_eq_true_eq]
        rcases List.mem_cons.mp hy with rfl | hyxs
        · exact hc
        · have hyx := hx y hyxs
          unfold tsGE at hyx
          omega
      have hk0 : k = 0 := by omega
      subst hk0
      simp

theorem countP_sortInto (p : OSCMessage → Bool) (S l : List OSCMessage) :
    (sortInto S l).countP p = S.countP p + l.countP p := by
  rw [(sortInto_perm l S).countP_eq, List.countP_append]

theorem take_sortInto_of_counts (k : Nat) (l : List OSCMessage) :
    ∀ W : List OSCMessage, W.Pairwise tsGE →
      (∀ z ∈ l, k ≤ W.countP (fun x => decide (z.timestamp ≤ x.timestamp))) →
      (sortInto W l).take k = W.take k := by
  induction l with
  | nil => intro W _ _; rfl
  | cons z zs ih =>
    intro W hW hcnt
    rw [sortInto_cons]
    have h1 : (insertDesc z W).take k = W.take k :=
      take_insertDesc_of_count z W k hW (hcnt z (List.mem_cons_self z zs))
    have h2 : (sortInto (insertDesc z W) zs).take k = (insertDesc z W).take k := by
      apply ih
      · exact insertDesc_sorted z W hW
      · intro y hy
        have hbase := hcnt y (List.mem_cons_of_mem z hy)
        have : W.countP (fun x => decide (y.timestamp ≤ x.timestamp)) ≤
            (insertDesc z W).countP (fun x => decide (y.timestamp ≤ x.timestamp)) := by
          rw [(insertDesc_perm z W).countP_eq, List.countP_cons]
          omega
        omega
    rw [h2, h1]

/-- Truncating each already-sorted piece to its first `k` elements before
merging them does not change the first `k` elements of the merged sort. -/
theorem take_fold_pieces (k : Nat) (qs : List (List OSCMessage)) :
    (∀ p ∈ qs, p.Pairwise tsGE) →
    ∀ S S' : List OSCMessage, S.Pairwise tsGE → S'.Pairwise tsGE →
      S.take k = S'.take k →
      ((qs.map (fun p => p.take k)).foldl sortInto S).take k =
        (qs.foldl sortInto S').take k := by
  induction qs with
  | nil => intro _ S S' _ _ h; simpa using h
  | cons q qs ih =>
    intro hq S S' hS hS' h
    simp only [List.map_cons, List.foldl_cons]
    have hqsorted : q.Pairwise tsGE := hq q (List.mem_cons_self q qs)
    have hsplitq : sortInto S' q = sortInto (sortInto S' (q.take k)) (q.drop k) := by
      rw [← sortInto_append, List.take_append_drop]
    have hA : (sortInto S (q.take k)).take k = (sortInto S' (q.take k)).take k :=
      take_sortInto_congr k _ S S' h
    have hB : (sortInto (sortInto S' (q.take k)) (q.drop k)).take k =
        (sortInto S' (q.take k)).take k := by
      apply take_sortInto_of_counts
      · exact sortInto_sorted _ _ hS'
      · intro z hz
        have hklen : k < q.length := by
          by_contra hk2
          push_neg at hk2
          rw [List.drop_eq_nil_of_le hk2] at hz
          exact absurd hz (List.not_mem_nil z)
        have hcross : ∀ x ∈ q.take k, tsGE x z := by
          have hq2 : (q.take k ++ q.drop k).Pairwise tsGE := by
            rw [List.take_append_drop]
            exact hqsorted
          intro x hx
          exact (List.pairwise_append.mp hq2).2.2 x hx z hz
        have hall : (q.take k).countP
            (fun x => decide (z.timestamp ≤ x.timestamp)) = (q.take k).length := by
          rw [List.countP_eq_length]
          intro x hx
          simpa using hcross x hx
        have hlen : (q.take k).length = k := by
          rw [List.length_take]
          omega
        rw [countP_sortInto, hall, hlen]
        omega
    rw [hsplitq]
    exact ih (fun p hp => hq p (List.mem_cons_of_mem q hp))
      (sortInto S (q.take k)) (sortInto (sortInto S' (q.take k)) (q.drop k))
      (sortInto_sorted _ _ hS) (sortInto_sorted _ _ (sortInto_sorted _ _ hS'))
      (by rw [hB, hA])

theorem sortDesc_flatten (L : List (List OSCMessage)) :
    sortByTimestampDesc L.flatten = L.foldl sortInto [] := by
  unfold sortByTimestampDesc sortInto
  exact List.foldl_flatten _ _ _

/-- The heart of the aggregation refinement: truncating each per-endpoint
result to the first `k` (what the code does by passing the caller's limit to
every store) does not change the first `k` of the re-sorted concatenation,
so the code's global truncation returns exactly what the specification's
algorithm (per-endpoint queries without limit) returns. -/
theorem c5_messages (eps : List Endpoint) (pat : Option String)
    (s u : Option Int) (k : Int) (hk : 0 < k) :
    (sortByTimestampDesc
        ((eps.map (fun e =>
          getMessages e.messageBuffer ⟨pat, s, u, some k⟩)).flatten)).take k.toNat =
      applyLimit (some k) (sortByTimestampDesc
        ((eps.map (fun e =>
          getMessages e.messageBuffer ⟨pat, s, u, none⟩)).flatten)) := by
  have hk0 : k ≠ 0 := by omega
  have hcode : (fun e : Endpoint => getMessages e.messageBuffer ⟨pat, s, u, some k⟩) =
      (fun e : Endpoint =>
        (sortByTimestampDesc (queryFiltered e.messageBuffer ⟨pat, s, u, none⟩)).take
          k.toNat) := by
    funext e
    simp only [getMessages, applyLimit, if_neg hk0, if_pos hk]
    rfl
  have hspec : (fun e : Endpoint => getMessages e.messageBuffer ⟨pat, s, u, none⟩) =
      (fun e : Endpoint =>
        sortByTimestampDesc (queryFiltered e.messageBuffer ⟨pat, s, u, none⟩)) := by
    funext e
    rfl
  rw [applyLimit, if_neg hk0, if_pos hk, hcode, hspec]
  have h1 : eps.map (fun e : Endpoint =>
        (sortByTimestampDesc (queryFiltered e.messageBuffer ⟨pat, s, u, none⟩)).take
          k.toNat) =
      (eps.map (fun e : Endpoint =>
        sortByTimestampDesc (queryFiltered e.messageBuffer ⟨pat, s, u, none⟩))).map
        (fun p => p.take k.toNat) := by
    rw [List.map_map]
    rfl
  rw [h1, sortDesc_flatten, sortDesc_flatten]
  apply take_fold_pieces k.toNat _ _ [] [] List.Pairwise.nil List.Pairwise.nil rfl
  intro p hp
  obtain ⟨e, _, rfl⟩ := List.mem_map.mp hp
  exact sortDesc_sorted _

/-- Claim C5: for every registry query with no endpoint id, the code's result
coincides with the specification's aggregation algorithm: query every store
(per the spec, without a per-endpoint limit), concatenate, re-sort the
concatenation newest-first, apply the limit only to the combined list, and
report `totalCount` as the sum of the stores' current counts.  (The code
passes the caller's limit to each store too, but this provably never changes
the outcome.) -/
theorem c5_aggregate_query (mgr : OSCManager) (q : MessageQuery) :
    managerGetMessages mgr none q = specAggregateMessages mgr q := by
  rcases q with ⟨pat, s, u, lim⟩
  cases lim with
  | none => rfl
  | some k =>
    rcases lt_trichotomy k 0 with hneg | hzero | hpos
    · have hk0 : k ≠ 0 := by omega
      have hkneg : ¬ k > 0 := by omega
      have hpiece : (fun e : Endpoint =>
            getMessages e.messageBuffer ⟨pat, s, u, some k⟩) =
          (fun e : Endpoint => getMessages e.messageBuffer ⟨pat, s, u, none⟩) := by
        funext e
        simp only [getMessages, applyLimit, if_neg hk0, if_neg hkneg]
        rfl
      unfold managerGetMessages specAggregateMessages
      simp only [hpiece, applyLimit, if_neg hk0, if_neg hkneg]
    · subst hzero
      have hflat : (mgr.endpoints.map (fun e : Endpoint =>
          getMessages e.messageBuffer ⟨pat, s, u, some 0⟩)).flatten = [] := by
        rw [List.flatten_eq_nil_iff]
        intro l hl
        obtain ⟨e, _, rfl⟩ := List.mem_map.mp hl
        rfl
      unfold managerGetMessages specAggregateMessages
      simp only [hflat]
      rfl
    · unfold managerGetMessages specAggregateMessages
      have hmsg := c5_messages mgr.endpoints pat s u k hpos
      simp only [if_pos hpos]
      rw [hmsg]

end OscSpec
